import Mathlib

/-!
Verification development for the ApiToaster log-store engine
(`FileReader` in `src/module/fileReader.ts`, `FileWriter` in
`src/module/files/writer.ts`).  The definitions below are a shallow
embedding of the TypeScript source: JavaScript objects become ordered
association lists, the file system and `JSON.parse` outcomes become
explicit inputs, thrown exceptions become `Option`/`Except` results.
-/

/-- JavaScript-like primitive values stored in a request body, with the
truthiness semantics used by `if (log.body[e])`. -/
inductive BVal where
  | vstr (s : String)
  | vnum (n : Int)
  | vbool (b : Bool)
  | vnull
deriving DecidableEq, Repr

/-- JavaScript truthiness for `BVal`. -/
def truthy : BVal → Bool
  | .vstr s => !(s == "")
  | .vnum n => !(n == 0)
  | .vbool b => b
  | .vnull => false

/-- The fixed redaction marker written by `obfuscate` (`'***'`). -/
def marker : BVal := .vstr "***"

/-- Property read `obj[k]` on a JS object modelled as an ordered
association list: the value at the first entry whose key is `k`. -/
def jsGet (body : List (String × BVal)) (k : String) : Option BVal :=
  (body.find? (fun p => p.1 == k)).map Prod.snd

/-- Property write `obj[k] = v` on an existing key: replaces the value at
key `k`, leaving key order unchanged (JS objects have unique keys). -/
def jsSet (body : List (String × BVal)) (k : String) (v : BVal) : List (String × BVal) :=
  body.map (fun p => if p.1 == k then (p.1, v) else p)

/-- `delete obj[k]`: removes the entry with key `k`. -/
def jsDelete (body : List (String × BVal)) (k : String) : List (String × BVal) :=
  body.filter (fun p => !(p.1 == k))

/-- `obj[k] = v` when `k` may be fresh, and also `{...obj, ...{k: v}}`:
overwrite in place if the key exists, otherwise append at the end
(JS insertion order). -/
def jsUpsert (a : List (String × α)) (k : String) (v : α) : List (String × α) :=
  if (a.map Prod.fst).contains k then
    a.map (fun p => if p.1 == k then (p.1, v) else p)
  else a ++ [(k, v)]

/-! Decimal digit machinery: JavaScript renders the segment number with
ordinary decimal notation (`logs_${max}.json`, `number.toString()`), and
`parseInt(digits, 10)` reads a digit run back.  We embed both. -/

/-- One decimal digit character. -/
def digitChar (n : Nat) : Char :=
  match n with
  | 0 => '0' | 1 => '1' | 2 => '2' | 3 => '3' | 4 => '4'
  | 5 => '5' | 6 => '6' | 7 => '7' | 8 => '8' | _ => '9'

/-- Fuel-driven decimal printer accumulating digits on the right. -/
def natCharsFuel : Nat → Nat → List Char → List Char
  | 0, _, acc => acc
  | fuel + 1, n, acc =>
    if n < 10 then digitChar n :: acc
    else natCharsFuel fuel (n / 10) (digitChar (n % 10) :: acc)

/-- Decimal representation of a natural number (as `n.toString()` in JS). -/
def natChars (n : Nat) : List Char := natCharsFuel (n + 1) n []

/-- `parseInt(s, 10)` on a (non-empty, all-digit) character run. -/
def digitsToNat (l : List Char) : Nat :=
  l.foldl (fun a c => a * 10 + (c.toNat - 48)) 0

/-- Split a string's characters at the first maximal digit run, as the
regex `/\d+/u` does: returns (digit-free prefix, the run, the rest). -/
def firstRunSplit : List Char → Option (List Char × List Char × List Char)
  | [] => none
  | c :: cs =>
    if c.isDigit then some ([], c :: cs.takeWhile Char.isDigit, cs.dropWhile Char.isDigit)
    else
      match firstRunSplit cs with
      | none => none
      | some (p, d, r) => some (c :: p, d, r)

/-- `file.match(/\d+/u)` followed by `parseInt(match[0], 10)`. -/
def extractNum (f : String) : Option Nat :=
  (firstRunSplit f.data).map (fun t => digitsToNat t.2.1)

/-- The segment file name `logs_<n>.json` produced by the template
literal in `fetchCurrentLogFile`. -/
def segName (n : Nat) : String :=
  ⟨"logs_".data ++ natChars n ++ ".json".data⟩

/-- Substring test `s.includes(pat)`. -/
def hasSub (pat : List Char) : List Char → Bool
  | [] => pat.isPrefixOf []
  | c :: t => pat.isPrefixOf (c :: t) || hasSub pat t

/-! Correctness lemmas for the digit machinery. -/

theorem digitChar_isDigit (n : Nat) (h : n < 10) : (digitChar n).isDigit = true := by
  interval_cases n <;> decide

theorem digitChar_toNat (n : Nat) (h : n < 10) : (digitChar n).toNat - 48 = n := by
  interval_cases n <;> decide

/-- Folding the digit-accumulation step over a printed number. -/
theorem natCharsFuel_foldl (fuel : Nat) :
    ∀ n acc a, n < 10 ^ (fuel + 1) →
      (natCharsFuel (fuel + 1) n acc).foldl (fun a c => a * 10 + (c.toNat - 48)) a =
      acc.foldl (fun a c => a * 10 + (c.toNat - 48)) (a * 10 ^ (natCharsFuel (fuel + 1) n []).length + n) := by
  induction fuel with
  | zero =>
    intro n acc a hn
    have h : n < 10 := by omega
    simp [natCharsFuel, h, digitChar_toNat n h]
  | succ f ih =>
    intro n acc a hn
    by_cases h : n < 10
    · simp [natCharsFuel, h, digitChar_toNat n h]
    · have hdiv : n / 10 < 10 ^ (f + 1) := by
        have : n < 10 ^ (f + 2) := hn
        have h10 : 0 < 10 := by omega
        rw [Nat.div_lt_iff_lt_mul h10]
        calc n < 10 ^ (f + 2) := this
          _ = 10 ^ (f + 1) * 10 := by ring
      have step : natCharsFuel (f + 2) n acc =
          natCharsFuel (f + 1) (n / 10) (digitChar (n % 10) :: acc) := by
        simp [natCharsFuel, h]
      rw [step]
      rw [ih (n / 10) (digitChar (n % 10) :: acc) a hdiv]
      have hlen : (natCharsFuel (f + 2) n []).length =
          (natCharsFuel (f + 1) (n / 10) []).length + 1 := by
        rw [show natCharsFuel (f + 2) n [] =
            natCharsFuel (f + 1) (n / 10) [digitChar (n % 10)] by simp [natCharsFuel, h]]
        have grow : ∀ fl m acc, (natCharsFuel fl m acc).length = (natCharsFuel fl m []).length + acc.length := by
          intro fl
          induction fl with
          | zero => intro m acc; simp [natCharsFuel]
          | succ g ihg =>
            intro m acc
            by_cases hm : m < 10
            · simp [natCharsFuel, hm]
              omega
            · simp only [natCharsFuel, hm, if_false]
              rw [ihg (m / 10) (digitChar (m % 10) :: acc),
                  ihg (m / 10) [digitChar (m % 10)]]
              simp
              omega
        rw [grow (f + 1) (n / 10) [digitChar (n % 10)]]
        simp
      rw [hlen]
      simp only [List.foldl_cons]
      congr 1
      have hmod : (digitChar (n % 10)).toNat - 48 = n % 10 :=
        digitChar_toNat (n % 10) (Nat.mod_lt n (by omega))
      rw [hmod]
      have := Nat.div_add_mod n 10
      ring_nf
      omega

/-- `parseInt` inverts the decimal printer: `digitsToNat (natChars n) = n`. -/
theorem digitsToNat_natChars (n : Nat) : digitsToNat (natChars n) = n := by
  have h : n < 10 ^ (n + 1) := by
    calc n < 10 ^ n := Nat.lt_pow_self (by omega) n
      _ ≤ 10 ^ (n + 1) := Nat.pow_le_pow_right (by omega) (by omega)
  have := natCharsFuel_foldl n n [] 0 h
  simpa [natChars, digitsToNat] using this

/-- Every character the printer produces beyond the accumulator is a digit. -/
theorem natCharsFuel_digits (fuel : Nat) :
    ∀ n acc c, c ∈ natCharsFuel fuel n acc → c ∈ acc ∨ c.isDigit = true := by
  induction fuel with
  | zero => intro n acc c hc; exact Or.inl hc
  | succ f ih =>
    intro n acc c hc
    by_cases h : n < 10
    · simp only [natCharsFuel, h, if_true, List.mem_cons] at hc
      rcases hc with hc | hc
      · exact Or.inr (hc ▸ digitChar_isDigit n h)
      · exact Or.inl hc
    · simp only [natCharsFuel, h, if_false] at hc
      rcases ih (n / 10) (digitChar (n % 10) :: acc) c hc with hc2 | hc2
      · rcases List.mem_cons.mp hc2 with hc3 | hc3
        · exact Or.inr (hc3 ▸ digitChar_isDigit (n % 10) (Nat.mod_lt n (by omega)))
        · exact Or.inl hc3
      · exact Or.inr hc2

theorem natChars_digits (n : Nat) : ∀ c ∈ natChars n, c.isDigit = true := by
  intro c hc
  rcases natCharsFuel_digits (n + 1) n [] c hc with h | h
  · cases h
  · exact h

/-- The printer keeps a nonempty accumulator nonempty. -/
theorem natCharsFuel_ne_nil (fuel : Nat) :
    ∀ m acc, acc ≠ [] → natCharsFuel fuel m acc ≠ [] := by
  induction fuel with
  | zero => intro m acc h; exact h
  | succ f ih =>
    intro m acc h
    by_cases hm : m < 10
    · simp [natCharsFuel, hm]
    · simp only [natCharsFuel, hm, if_false]
      exact ih (m / 10) (digitChar (m % 10) :: acc) (by simp)

/-- The printer never returns an empty list. -/
theorem natChars_ne_nil (n : Nat) : natChars n ≠ [] := by
  unfold natChars
  by_cases h : n < 10
  · simp [natCharsFuel, h]
  · cases n with
    | zero => omega
    | succ m =>
      have step : natCharsFuel (m + 2) (m + 1) [] =
          natCharsFuel (m + 1) ((m + 1) / 10) [digitChar ((m + 1) % 10)] := by
        simp [natCharsFuel, h]
      rw [step]
      exact natCharsFuel_ne_nil (m + 1) ((m + 1) / 10) [digitChar ((m + 1) % 10)] (by simp)

/-! Behaviour of `firstRunSplit` on well-formed segment names. -/

/-- `takeWhile` passes over an all-satisfying prefix. -/
theorem takeWhile_all_append (p : Char → Bool) (ds rest : List Char)
    (h : ∀ c ∈ ds, p c = true) :
    (ds ++ rest).takeWhile p = ds ++ rest.takeWhile p := by
  induction ds with
  | nil => rfl
  | cons d ds ih =>
    have hd : p d = true := h d (by simp)
    simp only [List.cons_append, List.takeWhile_cons, hd, if_true]
    rw [ih (fun c hc => h c (by simp [hc]))]

/-- `dropWhile` drops an all-satisfying prefix. -/
theorem dropWhile_all_append (p : Char → Bool) (ds rest : List Char)
    (h : ∀ c ∈ ds, p c = true) :
    (ds ++ rest).dropWhile p = rest.dropWhile p := by
  induction ds with
  | nil => rfl
  | cons d ds ih =>
    have hd : p d = true := h d (by simp)
    simp only [List.cons_append, List.dropWhile_cons, hd, if_true]
    exact ih (fun c hc => h c (by simp [hc]))

/-- `firstRunSplit` walks over a digit-free prefix, collecting it. -/
theorem firstRunSplit_nondigit_lead (pre l : List Char)
    (h : ∀ c ∈ pre, c.isDigit = false) :
    firstRunSplit (pre ++ l) =
      (firstRunSplit l).map (fun t => (pre ++ t.1, t.2.1, t.2.2)) := by
  induction pre with
  | nil =>
    cases hfl : firstRunSplit l with
    | none => simp [hfl]
    | some t => simp [hfl]
  | cons c cs ih =>
    have hc : c.isDigit = false := h c (by simp)
    have ihh := ih (fun x hx => h x (by simp [hx]))
    simp only [List.cons_append, firstRunSplit, hc, Bool.false_eq_true, if_false, List.append_eq]
    rw [ihh]
    cases hfl : firstRunSplit l with
    | none => simp
    | some t => simp

/-- On a nonempty all-digit run followed by a non-digit boundary,
`firstRunSplit` returns exactly that run. -/
theorem firstRunSplit_digit_run (ds rest : List Char) (d : Char)
    (hds : ∀ c ∈ d :: ds, c.isDigit = true)
    (hrest : rest.takeWhile Char.isDigit = [] ) :
    firstRunSplit ((d :: ds) ++ rest) = some ([], d :: ds, rest) := by
  have hd : d.isDigit = true := hds d (by simp)
  simp only [List.cons_append, firstRunSplit, hd, if_true, List.append_eq]
  have htake : (ds ++ rest).takeWhile Char.isDigit = ds ++ rest.takeWhile Char.isDigit :=
    takeWhile_all_append _ ds rest (fun c hc => hds c (by simp [hc]))
  have hdrop : (ds ++ rest).dropWhile Char.isDigit = rest.dropWhile Char.isDigit :=
    dropWhile_all_append _ ds rest (fun c hc => hds c (by simp [hc]))
  have hrestdrop : rest.dropWhile Char.isDigit = rest := by
    cases rest with
    | nil => rfl
    | cons r rs =>
      simp only [List.takeWhile_cons] at hrest
      by_cases hr : r.isDigit = true
      · simp [hr] at hrest
      · simp only [List.dropWhile_cons]
        simp [hr]
  rw [htake, hdrop, hrest, hrestdrop]
  simp

/-- `firstRunSplit` on a segment name `logs_<n>.json`. -/
theorem firstRunSplit_segName (n : Nat) :
    firstRunSplit (segName n).data = some ("logs_".data, natChars n, ".json".data) := by
  have hdata : (segName n).data = "logs_".data ++ (natChars n ++ ".json".data) := by
    simp [segName]
  rw [hdata]
  rw [firstRunSplit_nondigit_lead "logs_".data (natChars n ++ ".json".data) (by decide)]
  cases hnc : natChars n with
  | nil => exact absurd hnc (natChars_ne_nil n)
  | cons d ds =>
    have hdig : ∀ c ∈ d :: ds, c.isDigit = true := by
      intro c hc
      exact natChars_digits n c (hnc ▸ hc)
    rw [firstRunSplit_digit_run ds ".json".data d hdig (by decide)]
    simp

/-- `parseInt` of the first digit run of `logs_<n>.json` is `n`. -/
theorem extractNum_segName (n : Nat) : extractNum (segName n) = some n := by
  unfold extractNum
  rw [firstRunSplit_segName n]
  simp [digitsToNat_natChars n]

/-- A prefix match makes `hasSub` succeed. -/
theorem hasSub_of_isPrefixOf (pat l : List Char) (h : pat.isPrefixOf l = true) :
    hasSub pat l = true := by
  cases l with
  | nil => exact h
  | cons c t => simp [hasSub, h]

/-- Segment names contain the substring `logs`. -/
theorem hasSub_segName (n : Nat) : hasSub "logs".data (segName n).data = true := by
  apply hasSub_of_isPrefixOf
  simp [segName, List.isPrefixOf]

/-! The log-store engine state and rotation machinery. -/

/-- In-memory state of `FileReader`/`FileWriter` relevant to rotation:
the proto segment map `this._logs.logs` (insertion ordered), the index
map `this._index.indexes`, the current segment name and the candidate
entry's encoded byte size `this._currLogSize`. -/
structure EngineState where
  logs : List (String × String)
  index : List (String × String)
  currLogFile : String
  currLogSize : Nat
deriving DecidableEq, Repr

/-- `cleanLogs`: keep only the last inserted entry of the segment map
(`Object.entries(this.logs.logs).slice(-1)`). -/
def cleanLogs (logs : List (String × String)) : List (String × String) :=
  match logs.getLast? with
  | some p => [p]
  | none => []

/-- `incrementLogFile(logName)`: find the first digit run, add 1 to its
`parseInt` value and substitute it back (`logName.replace(/\d+/u, ...)`).
When the name has no digits the source logs an error and then still
dereferences the `null` match (`match![0]`), raising a `TypeError`;
we model that escape as `none`. -/
def incrementLogFile (logName : String) : Option String :=
  match firstRunSplit logName.data with
  | none => none
  | some (p, d, r) => some ⟨p ++ natChars (digitsToNat d + 1) ++ r⟩

/-- Common body of `checkFileSize(logName)`: `fileSize` stands for
`fs.statSync(logPath).size`.  Over the threshold, increment the segment
name and compact the map; otherwise leave the state untouched. -/
def checkFileSizeAux (threshold fileSize : Nat) (st : EngineState) : Option EngineState :=
  if fileSize + st.currLogSize > threshold then
    match incrementLogFile st.currLogFile with
    | none => none
    | some newName => some { st with currLogFile := newName, logs := cleanLogs st.logs }
  else some st

/-- `FileReader.checkFileSize`: rotation threshold literal `5000`. -/
def checkFileSize (fileSize : Nat) (st : EngineState) : Option EngineState :=
  checkFileSizeAux 5000 fileSize st

/-- `FileWriter.checkFileSize`: rotation threshold literal `50000000000`. -/
def writerCheckFileSize (fileSize : Nat) (st : EngineState) : Option EngineState :=
  checkFileSizeAux 50000000000 fileSize st

/-- `fetchCurrentLogFile(fileName?)`: explicit name wins; otherwise list
the directory, keep names containing `logs`, extract each first number,
drop the null ones, and when any remain select `logs_<max>.json`. -/
def fetchCurrentLogFile (fileName : Option String) (files : List String)
    (st : EngineState) : EngineState :=
  match fileName with
  | some f => { st with currLogFile := f }
  | none =>
    let fs := files.filter (fun f => hasSub "logs".data f.data)
    let logNumbers := (fs.map extractNum).filterMap id
    if logNumbers.isEmpty then st
    else { st with currLogFile := segName (logNumbers.foldl Nat.max 0) }

/-! Helper lemmas for rotation and selection. -/

theorem incrementLogFile_segName (n : Nat) :
    incrementLogFile (segName n) = some (segName (n + 1)) := by
  unfold incrementLogFile
  rw [firstRunSplit_segName n]
  simp [digitsToNat_natChars n, segName]

theorem cleanLogs_last (l : List (String × String)) (u e : String) :
    cleanLogs (l ++ [(u, e)]) = [(u, e)] := by
  unfold cleanLogs
  rw [List.getLast?_concat]

/-- The start value bounds a `Nat.max` fold from below. -/
theorem foldl_max_le_start (ns : List Nat) : ∀ a, a ≤ ns.foldl Nat.max a := by
  induction ns with
  | nil => intro a; exact le_refl a
  | cons m ms ih =>
    intro a
    simp only [List.foldl_cons]
    exact le_trans (Nat.le_max_left a m) (ih (Nat.max a m))

/-- Folding `Nat.max` over a list bounds every element. -/
theorem foldl_max_ge (ns : List Nat) : ∀ a k, k ∈ ns → k ≤ ns.foldl Nat.max a := by
  induction ns with
  | nil => intro a k hk; cases hk
  | cons m ms ih =>
    intro a k hk
    rcases List.mem_cons.mp hk with rfl | hk2
    · simp only [List.foldl_cons]
      exact le_trans (Nat.le_max_right a k) (foldl_max_le_start ms (Nat.max a k))
    · exact ih (Nat.max a m) k hk2

/-- The fold of `Nat.max` is the start value or a list element. -/
theorem foldl_max_mem (ns : List Nat) : ∀ a, ns.foldl Nat.max a = a ∨ ns.foldl Nat.max a ∈ ns := by
  induction ns with
  | nil => intro a; exact Or.inl rfl
  | cons m ms ih =>
    intro a
    rcases ih (Nat.max a m) with h | h
    · by_cases hm : a ≤ m
      · right
        simp only [List.foldl_cons, h]
        have hx : Nat.max a m = m := Nat.max_eq_right hm
        rw [hx]
        exact List.mem_cons_self m ms
      · left
        simp only [List.foldl_cons, h]
        exact Nat.max_eq_left (by omega)
    · right
      simp only [List.foldl_cons]
      exact List.mem_cons_of_mem m h

/-- C1: when the on-disk segment size plus the candidate entry's encoded
size exceeds the threshold 5000, `checkFileSize` increments the numeric
suffix of the current segment name by exactly one and keeps only the
most-recently-appended entry in the in-memory map; at or below the
threshold it changes nothing. -/
theorem rotation_trigger_C1 (n fileSize : Nat) (st : EngineState)
    (hname : st.currLogFile = segName n) :
    (fileSize + st.currLogSize > 5000 →
      checkFileSize fileSize st =
        some { st with currLogFile := segName (n + 1), logs := cleanLogs st.logs } ∧
      ∀ l u e, st.logs = l ++ [(u, e)] → cleanLogs st.logs = [(u, e)]) ∧
    (fileSize + st.currLogSize ≤ 5000 → checkFileSize fileSize st = some st) := by
  constructor
  · intro h
    refine ⟨?_, ?_⟩
    · unfold checkFileSize checkFileSizeAux
      rw [if_pos h, hname, incrementLogFile_segName n]
    · intro l u e hl
      rw [hl]
      exact cleanLogs_last l u e
  · intro h
    unfold checkFileSize checkFileSizeAux
    rw [if_neg (by omega)]

/-- C1 witness: a concrete over-threshold capture on `logs_0.json` moves
to `logs_1.json` and keeps only the last entry. -/
theorem rotation_trigger_C1_witness :
    (⟨[("a", "x"), ("b", "y")], [], segName 0, 6000⟩ : EngineState).currLogFile = segName 0 ∧
    (0 : Nat) + 6000 > 5000 ∧
    checkFileSize 0 ⟨[("a", "x"), ("b", "y")], [], segName 0, 6000⟩ =
      some ⟨[("b", "y")], [], segName 1, 6000⟩ := by
  have h := rotation_trigger_C1 0 0 ⟨[("a", "x"), ("b", "y")], [], segName 0, 6000⟩ rfl
  refine ⟨rfl, by omega, ?_⟩
  rw [(h.1 (by decide)).1]
  rfl

/-- C2: on a segment name with no numeric suffix the source logs an
error but then dereferences the `null` regex match, so the rotation
check raises a `TypeError` instead of skipping rotation; evaluated at
the failing input `logs.json` with a combined size of 6000 bytes. -/
theorem malformed_name_C2_eval :
    incrementLogFile "logs.json" = none ∧
    checkFileSize 6000 ⟨[("a", "x")], [], "logs.json", 0⟩ = none := by
  constructor
  · rfl
  · rfl

/-- C5: with no explicit target, `fetchCurrentLogFile` keeps the current
default when the directory is empty, and otherwise selects the segment
name with the maximum numeric suffix among well-formed segment files. -/
theorem segment_selection_C5 (ns : List Nat) (st : EngineState) :
    fetchCurrentLogFile none [] st = st ∧
    (ns ≠ [] →
      (fetchCurrentLogFile none (ns.map segName) st).currLogFile =
        segName (ns.foldl Nat.max 0) ∧
      ns.foldl Nat.max 0 ∈ ns ∧
      ∀ k ∈ ns, k ≤ ns.foldl Nat.max 0) := by
  constructor
  · rfl
  · intro hne
    have hfilter : (ns.map segName).filter (fun f => hasSub "logs".data f.data) = ns.map segName := by
      apply List.filter_eq_self.mpr
      intro f hf
      rcases List.mem_map.mp hf with ⟨n, _, rfl⟩
      exact hasSub_segName n
    have hnums : (((ns.map segName).map extractNum).filterMap id) = ns := by
      rw [List.map_map]
      have : extractNum ∘ segName = some := by
        funext n
        exact extractNum_segName n
      rw [this]
      rw [List.filterMap_map]
      simp
    have hsel : fetchCurrentLogFile none (ns.map segName) st =
        { st with currLogFile := segName (ns.foldl Nat.max 0) } := by
      unfold fetchCurrentLogFile
      simp only [hfilter, hnums]
      rw [if_neg (by simp [List.isEmpty_iff, hne])]
    refine ⟨by rw [hsel], ?_, fun k hk => foldl_max_ge ns 0 k hk⟩
    rcases foldl_max_mem ns 0 with h | h
    · cases ns with
      | nil => exact absurd rfl hne
      | cons m ms =>
        have hm : m ≤ (m :: ms).foldl Nat.max 0 :=
          foldl_max_ge (m :: ms) 0 m (List.mem_cons_self m ms)
        rw [h] at hm ⊢
        have : m = 0 := by omega
        rw [← this]
        exact List.mem_cons_self m ms
    · exact h

/-- C5 witness: among `logs_0.json`, `logs_3.json`, `logs_7.json` the
engine selects `logs_7.json`. -/
theorem segment_selection_C5_witness :
    ([0, 3, 7] : List Nat) ≠ [] ∧
    (fetchCurrentLogFile none ([0, 3, 7].map segName)
      ⟨[], [], "logs_0.json", 0⟩).currLogFile = segName 7 := by
  have h := (segment_selection_C5 [0, 3, 7] ⟨[], [], "logs_0.json", 0⟩).2 (by decide)
  exact ⟨by decide, h.1⟩

/-! The Redactor: `obfuscate` from `FileReader`/`FileWriter`. -/

/-- One step of `obfuscate` for a configured field name `e`:
`if (log.body[e]) log.body[e] = '***'`. -/
def obfuscateStep (body : List (String × BVal)) (e : String) : List (String × BVal) :=
  match jsGet body e with
  | some v => if truthy v then jsSet body e marker else body
  | none => body

/-- `obfuscate`: for every configured field name other than the reserved
timestamp field `occured`, replace a present truthy body field by the
marker (`State.config.obfuscate.filter(f => f !== 'occured').forEach(...)`). -/
def obfuscate (cfg : List String) (body : List (String × BVal)) : List (String × BVal) :=
  (cfg.filter (fun field => field != "occured")).foldl obfuscateStep body

/-- The normalized entry built by `prepareLog` before encoding
(`INotFormattedLogEntry`); `occured` is the `Date.now()` timestamp. -/
structure NotFormattedLogEntry where
  method : Option String
  body : List (String × BVal)
  queryParams : List (String × String)
  headers : List (String × BVal)
  ip : Option String
  occured : Nat
deriving DecidableEq, Repr

/-- `this.obfuscate(body)` mutates only the entry's `body` record. -/
def obfuscateEntry (cfg : List String) (log : NotFormattedLogEntry) : NotFormattedLogEntry :=
  { log with body := obfuscate cfg log.body }

/-! Pointwise characterization of `obfuscate` on duplicate-free keys. -/

/-- Pointwise effect of one obfuscation step on a single body entry. -/
def stepFun (e : String) (p : String × BVal) : String × BVal :=
  if p.1 == e && truthy p.2 then (p.1, marker) else p

theorem stepFun_fst (e : String) (p : String × BVal) : (stepFun e p).1 = p.1 := by
  unfold stepFun
  split <;> rfl

theorem truthy_marker : truthy marker = true := by decide

/-- On a duplicate-free object, the first value found at a member's own
key is that member's value. -/
theorem jsGet_of_mem (body : List (String × BVal)) (hnd : (body.map Prod.fst).Nodup) :
    ∀ p ∈ body, jsGet body p.1 = some p.2 := by
  induction body with
  | nil => intro p hp; cases hp
  | cons q qs ih =>
    intro p hp
    simp only [List.map_cons, List.nodup_cons] at hnd
    rcases List.mem_cons.mp hp with rfl | hp2
    · unfold jsGet
      rw [List.find?_cons_of_pos _ (by simp)]
      rfl
    · have hne : q.1 ≠ p.1 := by
        intro he
        exact hnd.1 (he ▸ List.mem_map_of_mem Prod.fst hp2)
      unfold jsGet
      rw [List.find?_cons_of_neg _ (by simp [hne])]
      exact ih hnd.2 p hp2

/-- On duplicate-free keys one obfuscation step acts pointwise. -/
theorem obfuscateStep_eq_map (body : List (String × BVal)) (e : String)
    (hnd : (body.map Prod.fst).Nodup) :
    obfuscateStep body e = body.map (stepFun e) := by
  unfold obfuscateStep
  cases hget : jsGet body e with
  | none =>
    have hfind : body.find? (fun r => r.1 == e) = none := by
      unfold jsGet at hget
      cases hf : body.find? (fun r => r.1 == e) with
      | none => rfl
      | some q => rw [hf] at hget; cases hget
    have hall : ∀ p ∈ body, stepFun e p = id p := by
      intro p hp
      have hnone := List.find?_eq_none.mp hfind p hp
      unfold stepFun
      simp only [Bool.not_eq_true] at hnone
      simp [hnone]
    rw [List.map_congr_left hall, List.map_id]
  | some v =>
    by_cases ht : truthy v = true
    · simp only [ht, if_true]
      unfold jsSet
      apply List.map_congr_left
      intro p hp
      by_cases hpe : (p.1 == e) = true
      · have hpe2 : p.1 = e := by simpa using hpe
        have hv : jsGet body e = some p.2 := by
          rw [← hpe2]
          exact jsGet_of_mem body hnd p hp
        rw [hget] at hv
        have hv2 : p.2 = v := by
          injection hv with hv3
          exact hv3.symm
        unfold stepFun
        simp [hpe, hv2, ht]
      · unfold stepFun
        simp [hpe]
    · simp only [ht, if_false]
      have hall : ∀ p ∈ body, stepFun e p = id p := by
        intro p hp
        by_cases hpe : (p.1 == e) = true
        · have hpe2 : p.1 = e := by simpa using hpe
          have hv : jsGet body e = some p.2 := by
            rw [← hpe2]
            exact jsGet_of_mem body hnd p hp
          rw [hget] at hv
          have hv2 : p.2 = v := by
            injection hv with hv3
            exact hv3.symm
          unfold stepFun
          simp [hpe, hv2, ht]
        · unfold stepFun
          simp [hpe]
      rw [List.map_congr_left hall, List.map_id]
      simp

theorem map_stepFun_keys (body : List (String × BVal)) (e : String) :
    (body.map (stepFun e)).map Prod.fst = body.map Prod.fst := by
  rw [List.map_map]
  apply List.map_congr_left
  intro p _
  exact stepFun_fst e p

/-- Folding obfuscation steps acts pointwise on duplicate-free keys. -/
theorem foldl_obfuscateStep_eq (fs : List String) :
    ∀ body : List (String × BVal), (body.map Prod.fst).Nodup →
      fs.foldl obfuscateStep body = body.map (fun p => fs.foldl (fun q e => stepFun e q) p) := by
  induction fs with
  | nil =>
    intro body _
    simp
  | cons f fs ih =>
    intro body hnd
    simp only [List.foldl_cons]
    rw [obfuscateStep_eq_map body f hnd]
    rw [ih (body.map (stepFun f)) (by rw [map_stepFun_keys]; exact hnd)]
    rw [List.map_map]
    rfl


/-- Pointwise effect of folding obfuscation steps over a field list. -/
theorem foldl_stepFun_spec (fs : List String) :
    ∀ k v, fs.foldl (fun q e => stepFun e q) (k, v) =
      if k ∈ fs ∧ truthy v = true then (k, marker) else (k, v) := by
  induction fs with
  | nil => intro k v; simp
  | cons f fs ih =>
    intro k v
    simp only [List.foldl_cons]
    by_cases hk : k = f
    · by_cases ht : truthy v = true
      · have hstep : stepFun f (k, v) = (k, marker) := by
          unfold stepFun
          simp [hk, ht]
        rw [hstep, ih k marker]
        have hmem : k ∈ f :: fs := by
          rw [hk]
          exact List.mem_cons_self f fs
        rw [ite_self, if_pos ⟨hmem, ht⟩]
      · have hstep : stepFun f (k, v) = (k, v) := by
          unfold stepFun
          simp [ht]
        rw [hstep, ih k v]
        rw [if_neg (fun h => ht h.2), if_neg (fun h => ht h.2)]
    · by_cases ht : truthy v = true
      · have hstep : stepFun f (k, v) = (k, v) := by
          unfold stepFun
          simp [hk]
        rw [hstep, ih k v]
        by_cases hm : k ∈ fs
        · rw [if_pos ⟨hm, ht⟩, if_pos ⟨List.mem_cons_of_mem f hm, ht⟩]
        · rw [if_neg (fun h => hm h.1),
              if_neg (fun h => (List.mem_cons.mp h.1).elim hk hm)]
      · have hstep : stepFun f (k, v) = (k, v) := by
          unfold stepFun
          simp [hk]
        rw [hstep, ih k v]
        rw [if_neg (fun h => ht h.2), if_neg (fun h => ht h.2)]

/-- Closed form of `obfuscate` on duplicate-free keys: each body entry
is replaced by the marker exactly when its key is configured (and not
the reserved timestamp field) and its value is truthy. -/
theorem obfuscate_eq (cfg : List String) (body : List (String × BVal))
    (hnd : (body.map Prod.fst).Nodup) :
    obfuscate cfg body = body.map (fun p =>
      if p.1 ∈ cfg.filter (fun field => field != "occured") ∧ truthy p.2 = true
      then (p.1, marker) else p) := by
  unfold obfuscate
  rw [foldl_obfuscateStep_eq _ body hnd]
  apply List.map_congr_left
  intro p _
  obtain ⟨k, v⟩ := p
  exact foldl_stepFun_spec _ k v

theorem obfuscate_keys (cfg : List String) (body : List (String × BVal))
    (hnd : (body.map Prod.fst).Nodup) :
    (obfuscate cfg body).map Prod.fst = body.map Prod.fst := by
  rw [obfuscate_eq cfg body hnd, List.map_map]
  apply List.map_congr_left
  intro p _
  simp only [Function.comp_apply]
  split <;> rfl

/-- Redaction is idempotent on duplicate-free keys. -/
theorem obfuscate_idem (cfg : List String) (body : List (String × BVal))
    (hnd : (body.map Prod.fst).Nodup) :
    obfuscate cfg (obfuscate cfg body) = obfuscate cfg body := by
  have hnd2 : ((obfuscate cfg body).map Prod.fst).Nodup := by
    rw [obfuscate_keys cfg body hnd]
    exact hnd
  rw [obfuscate_eq cfg (obfuscate cfg body) hnd2, obfuscate_eq cfg body hnd, List.map_map]
  apply List.map_congr_left
  intro p _
  obtain ⟨k, v⟩ := p
  simp only [Function.comp_apply]
  by_cases hC : k ∈ cfg.filter (fun field => field != "occured") ∧ truthy v = true
  · rw [if_pos hC, if_pos ⟨hC.1, truthy_marker⟩]
  · rw [if_neg hC, if_neg hC]

/-- Reading through `obfuscate` on duplicate-free keys. -/
theorem jsGet_obfuscate (cfg : List String) (body : List (String × BVal)) (k : String)
    (hnd : (body.map Prod.fst).Nodup) :
    jsGet (obfuscate cfg body) k = (jsGet body k).map (fun v =>
      if k ∈ cfg.filter (fun field => field != "occured") ∧ truthy v = true
      then marker else v) := by
  rw [obfuscate_eq cfg body hnd]
  unfold jsGet
  rw [List.find?_map]
  have hpred : ((fun r : String × BVal => r.1 == k) ∘ (fun p : String × BVal =>
      if p.1 ∈ cfg.filter (fun field => field != "occured") ∧ truthy p.2 = true
      then (p.1, marker) else p)) = (fun p : String × BVal => p.1 == k) := by
    funext p
    simp only [Function.comp_apply]
    split <;> rfl
  rw [hpred]
  cases hf : body.find? (fun p => p.1 == k) with
  | none => rfl
  | some q =>
    have hqk := List.find?_some hf
    have hqk2 : q.1 = k := by simpa using hqk
    simp only [Option.map_some']
    rw [← hqk2]
    by_cases hC : q.1 ∈ cfg.filter (fun field => field != "occured") ∧ truthy q.2 = true
    · rw [if_pos hC, if_pos hC]
    · rw [if_neg hC, if_neg hC]

/-- C4: redaction is idempotent — obfuscating an already-obfuscated
entry changes nothing — and the entry's timestamp is never altered:
neither the top-level `occured` timestamp nor a body field named
`occured`, whatever the configured field list contains. -/
theorem redaction_C4 (cfg : List String) (e : NotFormattedLogEntry)
    (hnd : (e.body.map Prod.fst).Nodup) :
    obfuscateEntry cfg (obfuscateEntry cfg e) = obfuscateEntry cfg e ∧
    (obfuscateEntry cfg e).occured = e.occured ∧
    jsGet (obfuscateEntry cfg e).body "occured" = jsGet e.body "occured" := by
  refine ⟨?_, rfl, ?_⟩
  · show ({ e with body := obfuscate cfg (obfuscate cfg e.body) } : NotFormattedLogEntry) =
      { e with body := obfuscate cfg e.body }
    rw [obfuscate_idem cfg e.body hnd]
  · show jsGet (obfuscate cfg e.body) "occured" = jsGet e.body "occured"
    rw [jsGet_obfuscate cfg e.body "occured" hnd]
    have hocc : ("occured" : String) ∉ cfg.filter (fun field => field != "occured") := by
      intro hmem
      have h2 := (List.mem_filter.mp hmem).2
      simp at h2
    cases hj : jsGet e.body "occured" with
    | none => rfl
    | some v =>
      simp only [Option.map_some']
      rw [if_neg (fun h => hocc h.1)]

/-- A concrete entry for exercising redaction. -/
def entW : NotFormattedLogEntry :=
  ⟨none, [("password", BVal.vstr "x"), ("q", BVal.vstr "y"), ("occured", BVal.vstr "t")],
    [], [], none, 42⟩

/-- C4 witness: a body with `password`, `q` and `occured` fields under
the configuration `["password", "occured"]`. -/
theorem redaction_C4_witness :
    ((entW.body.map Prod.fst).Nodup) ∧
    obfuscateEntry ["password", "occured"] (obfuscateEntry ["password", "occured"] entW) =
      obfuscateEntry ["password", "occured"] entW ∧
    (obfuscateEntry ["password", "occured"] entW).occured = entW.occured ∧
    jsGet (obfuscateEntry ["password", "occured"] entW).body "occured" =
      jsGet entW.body "occured" := by
  have h := redaction_C4 ["password", "occured"] entW (by decide)
  exact ⟨by decide, h.1, h.2.1, h.2.2⟩

/-! Normalization in `prepareLog` and its effect on the caller's
request object (aliasing).  `filteredHeaders` is a shallow copy of
`req.headers` (`{...req.headers}`) from which the `content-length`
entry is deleted; the entry body is the request's body object itself
when body capture is on (`req.body ?? {}` without copying), so the
in-place redaction writes reach the caller's object. -/

/-- Capture configuration flags (`IConfig`). -/
structure CaptureConfig where
  method : Bool
  body : Bool
  queryParams : Bool
  headers : Bool
  ip : Bool
  obfuscate : List String
deriving Repr

/-- The caller-visible mutable pieces of the request. -/
structure ReqState where
  headers : List (String × BVal)
  body : Option (List (String × BVal))
deriving DecidableEq, Repr

/-- Which heap object the entry's `body` field refers to. -/
inductive BodyRef where
  | reqBody
  | freshObj
deriving DecidableEq, Repr

/-- Heap of `prepareLog`: the request's objects, the entry-body
reference, the fresh empty object allocated when the request body is
not captured, and the entry's headers value. -/
structure PrepareLogHeap where
  req : ReqState
  entryBody : BodyRef
  freshBody : List (String × BVal)
  entryHeaders : List (String × BVal)
deriving DecidableEq, Repr

/-- `this.obfuscate(body)` writes through the entry-body reference. -/
def obfuscateMut (cfg : List String) (h : PrepareLogHeap) : PrepareLogHeap :=
  match h.entryBody with
  | .reqBody => { h with req := { h.req with body := h.req.body.map (obfuscate cfg) } }
  | .freshObj => { h with freshBody := obfuscate cfg h.freshBody }

/-- The heap effect of `prepareLog(req)` up to and including redaction:
copy the headers, delete `content-length` from the copy, pick the entry
body object (`req.body` itself when body capture is on and present,
a fresh `{}` otherwise), then obfuscate through that reference. -/
def prepareLogMut (cfg : CaptureConfig) (req : ReqState) : PrepareLogHeap :=
  let filteredHeaders := jsDelete req.headers "content-length"
  let bodyRef : BodyRef :=
    if cfg.body then
      match req.body with
      | some _ => .reqBody
      | none => .freshObj
    else .freshObj
  obfuscateMut cfg.obfuscate
    { req := req
      entryBody := bodyRef
      freshBody := []
      entryHeaders := if cfg.headers then filteredHeaders else [] }

/-- C10: capture leaves the caller's headers untouched (the size header
is deleted only from the captured copy), but when body capture is on
the redaction writes into the caller's request body itself: configured
truthy fields of `req.body` hold the marker after `prepareLog`. -/
theorem capture_mutation_C10 (cfg : CaptureConfig) (req : ReqState) :
    (prepareLogMut cfg req).req.headers = req.headers ∧
    (cfg.body = true → ∀ l, req.body = some l →
      (prepareLogMut cfg req).req.body = some (obfuscate cfg.obfuscate l) ∧
      ((l.map Prod.fst).Nodup → ∀ k v, k ≠ "occured" → k ∈ cfg.obfuscate →
        jsGet l k = some v → truthy v = true →
        jsGet (obfuscate cfg.obfuscate l) k = some marker)) ∧
    (cfg.body = false → (prepareLogMut cfg req).req.body = req.body) := by
  refine ⟨?_, ?_, ?_⟩
  · unfold prepareLogMut obfuscateMut
    cases hb : cfg.body <;> cases hrb : req.body <;> simp
  · intro hcb l hl
    constructor
    · unfold prepareLogMut obfuscateMut
      rw [hcb, hl]
      simp [hl]
    · intro hnd k v hknotocc hkcfg hget ht
      rw [jsGet_obfuscate cfg.obfuscate l k hnd, hget]
      simp only [Option.map_some']
      rw [if_pos ⟨List.mem_filter.mpr ⟨hkcfg, by simp [hknotocc]⟩, ht⟩]
  · intro hcb
    unfold prepareLogMut obfuscateMut
    rw [hcb]
    simp

/-- C10 witness: with body capture on and `password` configured, the
caller's body object ends up redacted while the headers survive. -/
theorem capture_mutation_C10_witness :
    (⟨true, true, true, true, false, ["password"]⟩ : CaptureConfig).body = true ∧
    (⟨[("content-length", BVal.vstr "7")], some [("password", BVal.vstr "x")]⟩ : ReqState).body =
      some [("password", BVal.vstr "x")] ∧
    (prepareLogMut ⟨true, true, true, true, false, ["password"]⟩
      ⟨[("content-length", BVal.vstr "7")], some [("password", BVal.vstr "x")]⟩).req.headers =
      [("content-length", BVal.vstr "7")] ∧
    (prepareLogMut ⟨true, true, true, true, false, ["password"]⟩
      ⟨[("content-length", BVal.vstr "7")], some [("password", BVal.vstr "x")]⟩).req.body =
      some (obfuscate ["password"] [("password", BVal.vstr "x")]) ∧
    jsGet (obfuscate ["password"] [("password", BVal.vstr "x")]) "password" = some marker := by
  have h := capture_mutation_C10 ⟨true, true, true, true, false, ["password"]⟩
    ⟨[("content-length", BVal.vstr "7")], some [("password", BVal.vstr "x")]⟩
  have h2 := h.2.1 rfl [("password", BVal.vstr "x")] rfl
  refine ⟨rfl, rfl, h.1, h2.1, ?_⟩
  exact h2.2 (by decide) "password" (BVal.vstr "x") (by decide) (by decide) (by decide) (by decide)

/-! Loading and persisting: `prepareLogfile`, `prepareIndexFile`,
`prepareConfigFile`, `prepareConfig` and `saveFiles`. -/

/-- Parse outcome of a segment file's content (`JSON.parse` result), as
far as `prepareLogfile`'s checks observe it: `pnull` is JSON `null`,
`withLogs` any value whose `logs` member is truthy, and `noLogs t` any
other non-null value (the tag distinguishes concrete values). -/
inductive ParsedLogs where
  | pnull
  | withLogs (logs : List (String × String))
  | noLogs (tag : Nat)
deriving DecidableEq, Repr

/-- `prepareLogfile`: the value of `this.logs` after reading the
current segment file.  A parse exception (`none`) is caught and stores
`{logs: {}}`; a truthy `file?.logs` stores the file; otherwise
`this.logs = file ?? {logs: {}}` keeps a non-null malformed value
as-is (logging a warning) and only replaces JSON `null`. -/
def prepareLogfile (segDisk : Option ParsedLogs) : ParsedLogs :=
  match segDisk with
  | none => .withLogs []
  | some .pnull => .withLogs []
  | some (.withLogs l) => .withLogs l
  | some (.noLogs t) => .noLogs t

/-- C3 counterexample: content that parses to a non-null value with no
`logs` field (for example `{"foo": 1}`) is kept as-is by the loader,
not replaced by the empty default. -/
theorem recovery_default_C3_counterexample :
    prepareLogfile (some (.noLogs 0)) = ParsedLogs.noLogs 0 ∧
    prepareLogfile (some (.noLogs 0)) ≠ ParsedLogs.withLogs [] := by
  exact ⟨rfl, by decide⟩

/-- C3 (amended): the loader never raises — it is a total function of
the parse outcome; a parse failure or JSON `null` is replaced by the
empty default, a value with a truthy `logs` field is kept, and a
non-null value missing the `logs` field is kept as-is (to be
overwritten on the next save) rather than replaced by the default. -/
theorem recovery_default_C3 (l : List (String × String)) (t : Nat) :
    prepareLogfile none = .withLogs [] ∧
    prepareLogfile (some .pnull) = .withLogs [] ∧
    prepareLogfile (some (.withLogs l)) = .withLogs l ∧
    prepareLogfile (some (.noLogs t)) = .noLogs t :=
  ⟨rfl, rfl, rfl, rfl⟩

/-- The config snapshot record (`IConfigLog`). -/
structure ConfigLog where
  disableProto : Bool
deriving DecidableEq, Repr

/-- `prepareConfigFile`: parse `config.json` or fall back to
`{disableProto: false}` on a parse error. -/
def prepareConfigFile (diskConfig : Option ConfigLog) : ConfigLog :=
  match diskConfig with
  | some c => c
  | none => ⟨false⟩

/-- `prepareConfig`: overwrite the snapshot's flag from the ambient
caller configuration (`this.config.disableProto = State.config.disableProto`). -/
def prepareConfig (stateDisableProto : Bool) (c : ConfigLog) : ConfigLog :=
  { c with disableProto := stateDisableProto }

/-- The segment file content written by `saveFiles`. -/
inductive SegmentWrite where
  | textual (logsJson : List (String × String))
  | binary (logs : List (String × String))
deriving DecidableEq, Repr

/-- The set of files one save writes. -/
structure SavedFiles where
  segment : SegmentWrite
  index : List (String × String)
  config : Option ConfigLog
deriving DecidableEq, Repr

/-- `FileReader.saveFiles`: the segment content is chosen by the
ambient `State.config.disableProto` flag, then the index and the config
snapshot are written. -/
def readerSaveFiles (stateDisableProto : Bool) (logsJson logs index : List (String × String))
    (config : ConfigLog) : SavedFiles :=
  { segment := if stateDisableProto then .textual logsJson else .binary logs
    index := index
    config := some config }

/-- `FileWriter.saveFiles`: always the binary segment map, and no
config snapshot file. -/
def writerSaveFiles (logs index : List (String × String)) : SavedFiles :=
  { segment := .binary logs, index := index, config := none }

/-- The per-save config flow of `FileReader.save`: read the snapshot
from disk (`prepareConfigFile`), overwrite it from the ambient config
(`prepareConfig`), then persist everything (`saveFiles`). -/
def sessionPersist (diskConfig : Option ConfigLog) (stateDisableProto : Bool)
    (logsJson logs index : List (String × String)) : SavedFiles :=
  let snapshot := prepareConfigFile diskConfig
  let cfg := prepareConfig stateDisableProto snapshot
  readerSaveFiles stateDisableProto logsJson logs index cfg

/-- Whether a written segment used the textual (`disableProto`) mode. -/
def segmentModeTextual : SegmentWrite → Bool
  | .textual _ => true
  | .binary _ => false

/-- C6 counterexample: with the on-disk snapshot saying
`disableProto = true` (textual) but the ambient caller configuration
saying `false`, the save persists the binary segment map — the
encoding used is not the one read back from disk. -/
theorem config_snapshot_C6_counterexample :
    (prepareConfigFile (some ⟨true⟩)).disableProto = true ∧
    segmentModeTextual (sessionPersist (some ⟨true⟩) false [("a", "j")] [("a", "p")] []).segment
      = false ∧
    (sessionPersist (some ⟨true⟩) false [("a", "j")] [("a", "p")] []).config = some ⟨false⟩ := by
  exact ⟨rfl, rfl, rfl⟩

/-- C6 (amended): the encoding mode used to persist is the ambient
caller-supplied `disableProto` flag, not the snapshot read from disk;
the snapshot is read at session start but overwritten with the caller
flag before every save, and the snapshot file is rewritten on every
save with that caller flag. -/
theorem config_snapshot_C6 (diskConfig : Option ConfigLog) (sdp : Bool)
    (lj l i : List (String × String)) :
    segmentModeTextual (sessionPersist diskConfig sdp lj l i).segment = sdp ∧
    (sessionPersist diskConfig sdp lj l i).config = some ⟨sdp⟩ := by
  unfold sessionPersist readerSaveFiles prepareConfig prepareConfigFile
  cases sdp <;> cases diskConfig <;> simp [segmentModeTextual]

/-! Bootstrap: `validateFile` and `pre`. -/

/-- The `CannotCreateFile` error, which carries the file name. -/
structure CannotCreateFileE where
  fileName : String
deriving DecidableEq, Repr

/-- `validateFile(target, baseBody)`: create the file with the default
body when it is missing; a creation failure raises
`CannotCreateFile(target)`.  `fileAbsent` stands for
`!fs.existsSync(location)` and `writeFails` for a throwing
`fs.writeFileSync`. -/
def validateFile (target : String) (fileAbsent writeFails : Bool) :
    Except CannotCreateFileE Unit :=
  if fileAbsent then
    if writeFails then .error ⟨target⟩ else .ok ()
  else .ok ()

/-- File-system condition for one bootstrap file. -/
structure FileCond where
  absent : Bool
  writeFails : Bool
deriving DecidableEq, Repr

/-- `FileReader.pre()`: validate the index, the current segment and the
config snapshot, in that order; the first failure propagates. -/
def pre (currLogFile : String) (idx seg cfg : FileCond) :
    Except CannotCreateFileE Unit := do
  validateFile "index.json" idx.absent idx.writeFails
  validateFile currLogFile seg.absent seg.writeFails
  validateFile "config.json" cfg.absent cfg.writeFails

/-- C7: a bootstrap file that is absent and cannot be created raises a
`CannotCreateFile` error carrying that file's name; a file that exists
or is successfully created raises nothing, and when all three bootstrap
files are fine the whole bootstrap step succeeds. -/
theorem bootstrap_fatal_C7 (target : String) (fileAbsent writeFails : Bool)
    (curr : String) (idx seg cfg : FileCond) :
    (fileAbsent = true → writeFails = true →
      validateFile target fileAbsent writeFails = .error ⟨target⟩) ∧
    (fileAbsent = false ∨ writeFails = false →
      validateFile target fileAbsent writeFails = .ok ()) ∧
    (idx.absent = true → idx.writeFails = true →
      pre curr idx seg cfg = .error ⟨"index.json"⟩) ∧
    ((idx.absent = false ∨ idx.writeFails = false) →
      (seg.absent = false ∨ seg.writeFails = false) →
      (cfg.absent = false ∨ cfg.writeFails = false) →
      pre curr idx seg cfg = .ok ()) := by
  refine ⟨?_, ?_, ?_, ?_⟩
  · intro ha hw
    unfold validateFile
    rw [ha, hw]
    rfl
  · intro h
    unfold validateFile
    rcases h with h | h
    · rw [h]
      rfl
    · rw [h]
      cases fileAbsent <;> rfl
  · intro ha hw
    unfold pre validateFile
    rw [ha, hw]
    rfl
  · intro h1 h2 h3
    unfold pre validateFile
    rcases h1 with h1 | h1 <;> rcases h2 with h2 | h2 <;> rcases h3 with h3 | h3 <;>
      rw [h1, h2, h3] <;>
      cases idx.absent <;> cases seg.absent <;> cases cfg.absent <;> rfl

/-- C7 witness: concrete file-system conditions for both the fatal and
the successful cases. -/
theorem bootstrap_fatal_C7_witness :
    validateFile "config.json" true true = .error ⟨"config.json"⟩ ∧
    validateFile "index.json" false true = .ok () ∧
    pre "logs_0.json" ⟨true, true⟩ ⟨false, false⟩ ⟨false, false⟩ = .error ⟨"index.json"⟩ ∧
    pre "logs_0.json" ⟨false, false⟩ ⟨false, false⟩ ⟨false, false⟩ = .ok () := by
  have h := bootstrap_fatal_C7 "config.json" true true "logs_0.json"
    ⟨true, true⟩ ⟨false, false⟩ ⟨false, false⟩
  have h2 := bootstrap_fatal_C7 "index.json" false true "logs_0.json"
    ⟨false, false⟩ ⟨false, false⟩ ⟨false, false⟩
  exact ⟨h.1 rfl rfl, h2.2.1 (Or.inl rfl), h.2.2.1 rfl rfl,
    h2.2.2.2 (Or.inl rfl) (Or.inl rfl) (Or.inl rfl)⟩

/-! One capture step: `prepareLog` (map effects) then `checkFileSize`. -/

/-- `prepareIndexFile`: parse `index.json` or reset the in-memory index
to `{indexes: {}}` on a parse error. -/
def prepareIndexFile (diskIndex : Option (List (String × String))) :
    List (String × String) :=
  match diskIndex with
  | some i => i
  | none => []

/-- The in-memory map effects of `prepareLog(req)`: record the
candidate's encoded byte size, merge the freshly generated uuid into
the segment map (`{...this.logs.logs, ...logProto}`) and set the index
entry (`this.index.indexes[uuid] = ...`). -/
def prepareLogEntry (uuid enc loc : String) (encSize : Nat) (st : EngineState) : EngineState :=
  { st with
      currLogSize := encSize
      logs := jsUpsert st.logs uuid enc
      index := jsUpsert st.index uuid loc }

/-- One capture after the files are loaded: `prepareLog` then the
rotation check. -/
def captureStep (uuid enc loc : String) (encSize fileSize : Nat) (st : EngineState) :
    Option EngineState :=
  checkFileSize fileSize (prepareLogEntry uuid enc loc encSize st)

/-- Keys after a JS upsert are the old keys plus the inserted one. -/
theorem jsUpsert_keys_mem (a : List (String × String)) (k : String) (v : String)
    (m : String) :
    m ∈ (jsUpsert a k v).map Prod.fst ↔ m ∈ a.map Prod.fst ∨ m = k := by
  unfold jsUpsert
  by_cases hc : (a.map Prod.fst).contains k = true
  · rw [if_pos hc]
    have hkeys : (a.map (fun p => if p.1 == k then (p.1, v) else p)).map Prod.fst =
        a.map Prod.fst := by
      rw [List.map_map]
      apply List.map_congr_left
      intro p _
      simp only [Function.comp_apply]
      split <;> rfl
    rw [hkeys]
    constructor
    · exact Or.inl
    · intro h
      rcases h with h | rfl
      · exact h
      · simpa using hc
  · rw [if_neg hc]
    rw [List.map_append]
    simp

/-- `cleanLogs` keeps a subset of the entries. -/
theorem cleanLogs_subset (l : List (String × String)) : ∀ p ∈ cleanLogs l, p ∈ l := by
  unfold cleanLogs
  cases hl : l.getLast? with
  | none => intro p hp; cases hp
  | some q =>
    intro p hp
    have hpq : p = q := List.mem_singleton.mp hp
    rw [hpq]
    exact List.mem_of_mem_getLast? hl

/-- C8 counterexample: when the index file fails to parse (reset to the
empty index by `prepareIndexFile`) while the segment file loads with an
old entry `a`, the capture leaves `a` in the in-memory segment map but
not in the in-memory index. -/
theorem index_invariant_C8_counterexample :
    captureStep "u" "e" "loc" 10 0 ⟨[("a", "x")], prepareIndexFile none, segName 0, 0⟩ =
      some ⟨[("a", "x"), ("u", "e")], [("u", "loc")], segName 0, 10⟩ ∧
    "a" ∈ ([("a", "x"), ("u", "e")] : List (String × String)).map Prod.fst ∧
    "a" ∉ ([("u", "loc")] : List (String × String)).map Prod.fst := by
  refine ⟨rfl, by decide, by decide⟩

/-- C8 (amended): provided every id of the loaded segment map already
appears in the loaded index (true whenever both files parse and were
written by earlier captures), after a capture every id of the in-memory
segment map appears in the in-memory index — with or without rotation —
and the capture never removes a key from the index it loaded: it only
adds the new entry's id.  The containment can fail only when the index
file is unreadable while the segment file is not. -/
theorem index_invariant_C8 (uuid enc loc : String) (encSize fileSize : Nat)
    (st st2 : EngineState)
    (hsub : ∀ k, k ∈ st.logs.map Prod.fst → k ∈ st.index.map Prod.fst)
    (hstep : captureStep uuid enc loc encSize fileSize st = some st2) :
    (∀ k, k ∈ st2.logs.map Prod.fst → k ∈ st2.index.map Prod.fst) ∧
    (∀ k, k ∈ st.index.map Prod.fst → k ∈ st2.index.map Prod.fst) := by
  unfold captureStep checkFileSize checkFileSizeAux at hstep
  by_cases hcond : fileSize + (prepareLogEntry uuid enc loc encSize st).currLogSize > 5000
  · rw [if_pos hcond] at hstep
    cases hinc : incrementLogFile (prepareLogEntry uuid enc loc encSize st).currLogFile with
    | none =>
      rw [hinc] at hstep
      cases hstep
    | some newName =>
      rw [hinc] at hstep
      have hst2 : st2 = { prepareLogEntry uuid enc loc encSize st with
          currLogFile := newName,
          logs := cleanLogs (prepareLogEntry uuid enc loc encSize st).logs } := by
        injection hstep with h
        exact h.symm
      constructor
      · intro k hk
        rw [hst2] at hk
        rcases List.mem_map.mp hk with ⟨p, hpmem, rfl⟩
        have hp1 : p ∈ (prepareLogEntry uuid enc loc encSize st).logs :=
          cleanLogs_subset _ p hpmem
        have hk1 : p.1 ∈ (jsUpsert st.logs uuid enc).map Prod.fst :=
          List.mem_map_of_mem Prod.fst hp1
        have hk2 := (jsUpsert_keys_mem st.logs uuid enc p.1).mp hk1
        rw [hst2]
        apply (jsUpsert_keys_mem st.index uuid loc p.1).mpr
        rcases hk2 with h | h
        · exact Or.inl (hsub p.1 h)
        · exact Or.inr h
      · intro k hk
        rw [hst2]
        exact (jsUpsert_keys_mem st.index uuid loc k).mpr (Or.inl hk)
  · rw [if_neg hcond] at hstep
    have hst2 : st2 = prepareLogEntry uuid enc loc encSize st := by
      injection hstep with h
      exact h.symm
    constructor
    · intro k hk
      rw [hst2] at hk
      have hk2 := (jsUpsert_keys_mem st.logs uuid enc k).mp hk
      rw [hst2]
      apply (jsUpsert_keys_mem st.index uuid loc k).mpr
      rcases hk2 with h | h
      · exact Or.inl (hsub k h)
      · exact Or.inr h
    · intro k hk
      rw [hst2]
      exact (jsUpsert_keys_mem st.index uuid loc k).mpr (Or.inl hk)

/-- C8 witness: a clean capture over a consistent loaded state keeps
the segment-id-in-index containment and loses no index key. -/
theorem index_invariant_C8_witness :
    (∀ k, k ∈ ([("a", "x")] : List (String × String)).map Prod.fst →
      k ∈ ([("a", "i")] : List (String × String)).map Prod.fst) ∧
    captureStep "u" "e" "loc" 10 0 ⟨[("a", "x")], [("a", "i")], segName 0, 0⟩ =
      some ⟨[("a", "x"), ("u", "e")], [("a", "i"), ("u", "loc")], segName 0, 10⟩ ∧
    (∀ k, k ∈ ([("a", "x"), ("u", "e")] : List (String × String)).map Prod.fst →
      k ∈ ([("a", "i"), ("u", "loc")] : List (String × String)).map Prod.fst) := by
  have h := index_invariant_C8 "u" "e" "loc" 10 0
    ⟨[("a", "x")], [("a", "i")], segName 0, 0⟩
    ⟨[("a", "x"), ("u", "e")], [("a", "i"), ("u", "loc")], segName 0, 10⟩
    (by decide) rfl
  exact ⟨by decide, rfl, h.1⟩

/-- C9 counterexample: at a combined size of 6000 bytes the read/write
variant (`FileReader`, threshold 5000) rotates while the write-only
variant (`FileWriter`, threshold 50000000000) does not; and the two
variants do not persist the same set of files — only the read/write
variant writes the config snapshot. -/
theorem variant_equiv_C9_counterexample :
    checkFileSize 6000 ⟨[("a", "x"), ("b", "y")], [], segName 0, 0⟩ =
      some ⟨[("b", "y")], [], segName 1, 0⟩ ∧
    writerCheckFileSize 6000 ⟨[("a", "x"), ("b", "y")], [], segName 0, 0⟩ =
      some ⟨[("a", "x"), ("b", "y")], [], segName 0, 0⟩ ∧
    (readerSaveFiles false [] [("a", "p")] [] ⟨false⟩).config = some ⟨false⟩ ∧
    (writerSaveFiles [("a", "p")] []).config = none := by
  refine ⟨?_, rfl, rfl, rfl⟩
  unfold checkFileSize checkFileSizeAux
  rw [if_pos (by decide)]
  have hproj : (⟨[("a", "x"), ("b", "y")], [], segName 0, 0⟩ : EngineState).currLogFile =
      segName 0 := rfl
  rw [hproj, incrementLogFile_segName 0]
  rfl

/-- C9 (amended): the two capture variants share the identical
rotation/compaction transformation and identical binary segment and
index contents, but their rotation thresholds differ (5000 versus
50000000000) and the write-only variant does not persist the config
snapshot; whenever the combined size is on the same side of both
thresholds the rotation outcomes coincide. -/
theorem variant_equiv_C9 (fileSize : Nat) (st : EngineState)
    (lj l i : List (String × String)) (c : ConfigLog) :
    checkFileSize fileSize st = checkFileSizeAux 5000 fileSize st ∧
    writerCheckFileSize fileSize st = checkFileSizeAux 50000000000 fileSize st ∧
    (fileSize + st.currLogSize ≤ 5000 ∨ fileSize + st.currLogSize > 50000000000 →
      checkFileSize fileSize st = writerCheckFileSize fileSize st) ∧
    (readerSaveFiles false lj l i c).segment = (writerSaveFiles l i).segment ∧
    (readerSaveFiles false lj l i c).index = (writerSaveFiles l i).index ∧
    (readerSaveFiles false lj l i c).config = some c ∧
    (writerSaveFiles l i).config = none := by
  refine ⟨rfl, rfl, ?_, rfl, rfl, rfl, rfl⟩
  intro h
  unfold checkFileSize writerCheckFileSize checkFileSizeAux
  rcases h with h | h
  · rw [if_neg (by omega), if_neg (by omega)]
  · rw [if_pos (by omega), if_pos (by omega)]

/-- C9 witness: below both thresholds the two variants agree on a
concrete state. -/
theorem variant_equiv_C9_witness :
    ((0 : Nat) + (⟨[], [], segName 0, 0⟩ : EngineState).currLogSize ≤ 5000 ∨
      (0 : Nat) + (⟨[], [], segName 0, 0⟩ : EngineState).currLogSize > 50000000000) ∧
    checkFileSize 0 ⟨[], [], segName 0, 0⟩ = writerCheckFileSize 0 ⟨[], [], segName 0, 0⟩ := by
  have h := variant_equiv_C9 0 ⟨[], [], segName 0, 0⟩ [] [] [] ⟨false⟩
  exact ⟨Or.inl (by decide), h.2.2.1 (Or.inl (by decide))⟩
